import Mathlib

/-!
Verification development for the morse-chat repository: a shallow embedding
of the WebSocket frame codec (src/backend/websockets/src/frame.rs), the
message reassembler and writer (src/backend/websockets/src/lib.rs), the
handshake accept-hash computation and the room registry / broadcast
scheduler (src/backend/src/main.rs), together with theorems settling the
specification claims about them.

Bytes are modelled as `Nat` values; where the Rust code truncates to a
machine width this is made explicit with `% 256`, `% 2^16`, `% 2^64`.
Byte sources (the read half of a `TcpStream` that has ended, or a byte
slice) are modelled as `List Nat`: Rust's `read` into a zero-initialized
buffer of size `k` yields `min k available` bytes and leaves the rest of
the buffer zero, and never fails on such a source — this is `readFill`.
-/

namespace MorseChat

/-- Big-endian decoding of a byte list, as done by `u16::from_be_bytes` /
`u64::from_be_bytes` on exact-length buffers. -/
def beDecode (l : List Nat) : Nat :=
  l.foldl (fun acc b => acc * 256 + b) 0

/-- Big-endian encoding of `n` into `k` bytes, as done by `to_be_bytes`
(the caller truncates `n` to the machine width first). -/
def beEncode : Nat → Nat → List Nat
  | 0, _ => []
  | k + 1, n => (n / 256 ^ k) % 256 :: beEncode k n

/-- Model of `reader.read(&mut buf)` with `buf` a zero-initialized buffer of
size `k`, on a byte source that can no longer block: it fills the first
`min k src.length` bytes, leaves the rest of the buffer zero, and returns
the buffer together with the unconsumed source.  It never fails. -/
def readFill (k : Nat) (src : List Nat) : List Nat × List Nat :=
  (src.take k ++ List.replicate (k - src.length) 0, src.drop k)

/-- OpCode from frame.rs. -/
inductive OpCode where
  | Continuation
  | Text
  | Binary
  | NonControlReserved (c : Nat)
  | Close
  | Ping
  | Pong
  | ControlReserved (c : Nat)
  deriving DecidableEq, Repr

namespace OpCode

/-- `impl TryFrom<u8> for OpCode` (frame.rs lines 136-152). -/
def try_from (n : Nat) : Except String OpCode :=
  if n = 0x0 then .ok .Continuation
  else if n = 0x1 then .ok .Text
  else if n = 0x2 then .ok .Binary
  else if n = 0x8 then .ok .Close
  else if n = 0x9 then .ok .Ping
  else if n = 0xa then .ok .Pong
  else if 3 ≤ n ∧ n ≤ 7 then .ok (.NonControlReserved n)
  else if 0xb ≤ n ∧ n ≤ 0xf then .ok (.ControlReserved n)
  else .error "unrecognized opcode"

/-- `impl Into<u8> for OpCode` (frame.rs lines 154-167). -/
def toNat : OpCode → Nat
  | .Continuation => 0x0
  | .Text => 0x1
  | .Binary => 0x2
  | .NonControlReserved c => c
  | .Close => 0x8
  | .Ping => 0x9
  | .Pong => 0xa
  | .ControlReserved c => c

/-- `OpCode::is_control` (frame.rs lines 127-129). -/
def is_control : OpCode → Bool
  | .Close | .Ping | .Pong | .ControlReserved _ => true
  | _ => false

/-- `OpCode::is_non_control` (frame.rs lines 131-133). -/
def is_non_control (o : OpCode) : Bool :=
  ! o.is_control

/-- The opcode values actually produced by `OpCode::try_from`: the reserved
constructors carry their raw 4-bit code. -/
def Valid : OpCode → Prop
  | .NonControlReserved c => 3 ≤ c ∧ c ≤ 7
  | .ControlReserved c => 0xb ≤ c ∧ c ≤ 0xf
  | _ => True

instance : DecidablePred Valid := by
  intro o
  cases o <;> simp only [Valid] <;> infer_instance

end OpCode

/-- Frame from frame.rs: `is_final`, `opcode`, optional 4-byte mask key,
payload bytes. -/
structure Frame where
  is_final : Bool
  opcode : OpCode
  mask : Option (Nat × Nat × Nat × Nat)
  payload : List Nat
  deriving DecidableEq, Repr

/-- The `demask` function (frame.rs lines 106-112): XOR payload byte `i`
with the mask byte `i % 4` (the mask key cycled). -/
def demask (data : List Nat) (mask : Nat × Nat × Nat × Nat) : List Nat :=
  (List.range data.length).zip data |>.map fun p =>
    p.2 ^^^ (match p.1 % 4 with
             | 0 => mask.1
             | 1 => mask.2.1
             | 2 => mask.2.2.1
             | _ => mask.2.2.2)

namespace Frame

/-- `Frame::try_parse_from` (frame.rs lines 36-70) on a byte source that has
ended: two header bytes, optional extended length, optional mask key, then
the payload, each read with `readFill` (the Rust code uses `read`, not
`read_exact`, so a short source zero-fills rather than failing).  Returns
the frame and the unconsumed bytes. -/
def try_parse_from (src : List Nat) : Except String (Frame × List Nat) :=
  let r1 := readFill 2 src
  let b0 := r1.1.getD 0 0
  let b1 := r1.1.getD 1 0
  let is_final : Bool := b0 >>> 7 != 0
  match OpCode.try_from (b0 &&& 0x0f) with
  | .error e => .error e
  | .ok opcode =>
    let is_masked : Bool := b1 >>> 7 != 0
    let lenSel := b1 &&& 0x7f
    let r2 : Nat × List Nat :=
      if lenSel = 126 then
        let r := readFill 2 r1.2
        (beDecode r.1, r.2)
      else if lenSel = 127 then
        let r := readFill 8 r1.2
        (beDecode r.1, r.2)
      else (lenSel, r1.2)
    let r3 : Option (Nat × Nat × Nat × Nat) × List Nat :=
      if is_masked then
        let r := readFill 4 r2.2
        (some (r.1.getD 0 0, r.1.getD 1 0, r.1.getD 2 0, r.1.getD 3 0), r.2)
      else (none, r2.2)
    let r4 := readFill r2.1 r3.2
    .ok ({ is_final := is_final, opcode := opcode, mask := r3.1,
           payload := r4.1 }, r4.2)

/-- `Frame::write_to` (frame.rs lines 72-103), as the list of bytes written:
first byte is FIN | opcode; the length field uses the literal byte below
126, the 2-byte big-endian form for lengths 126..=0x7fff, and the 8-byte
form otherwise; then the mask key iff present; then the payload exactly as
stored (no masking is applied on the write path). -/
def write_to (f : Frame) : List Nat :=
  let opcode := f.opcode.toNat
  let is_final := if f.is_final then 0x80 else 0x0
  let first := is_final ||| opcode
  let is_masked := if f.mask.isSome then 0x80 else 0x0
  let actual_len := f.payload.length
  let lenBytes :=
    if actual_len < 126 then
      [(actual_len % 256) ||| is_masked]
    else if 126 ≤ actual_len ∧ actual_len ≤ 0x7fff then
      (126 ||| is_masked) :: beEncode 2 (actual_len % 2 ^ 16)
    else
      (127 ||| is_masked) :: beEncode 8 (actual_len % 2 ^ 64)
  let maskBytes :=
    match f.mask with
    | some (a, b, c, d) => [a, b, c, d]
    | none => []
  first :: lenBytes ++ maskBytes ++ f.payload

end Frame

/-- Message from lib.rs.  `Text` carries the bytes of the reassembled string
(the source decodes the accumulated bytes with `String::from_utf8_lossy`,
which is the identity on the valid-UTF-8 byte sequences all claims use;
the replacement-character behaviour on invalid UTF-8 is not modelled, as no
claim depends on it). -/
inductive Message where
  | Text (bytes : List Nat)
  | Binary (bytes : List Nat)
  deriving DecidableEq, Repr

/-- MessageError from lib.rs. -/
inductive MessageError where
  | ConnectionClosed
  | InvalidMessage
  | Network
  deriving DecidableEq, Repr

/-- End of the reassembly loop in `read_message_from` (lib.rs lines
164-168): `Text` iff the recorded flag is `Some(true)`. -/
def finishMessage (is_text : Option Bool) (message : List Nat) : Message :=
  match is_text with
  | some true => .Text message
  | _ => .Binary message

/-- The loop body of `read_message_from` (lib.rs lines 119-169), over the
stream of frames successively parsed by `Frame::try_parse_from` (which, on
a byte source, never fails — see `Frame.try_parse_from`).  Arguments mirror
the loop state: accumulated `message` bytes and the `is_text` flag.
Returns the frames written back to the stream (Pong/Close echoes; the
model's byte sink cannot fail, so the `MessageError::Network` arm is
unreachable) and `some result` once the loop exits, or `none` if the given
frames are exhausted with the loop still running. -/
def read_message_from : List Frame → List Nat → Option Bool →
    List Frame × Option (Except MessageError Message)
  | [], _, _ => ([], none)
  | f :: rest, message, is_text =>
    let is_text := if is_text.isNone then some (decide (f.opcode = .Text))
                   else is_text
    let payload := match f.mask with
      | some m => demask f.payload m
      | none => f.payload
    let message := if f.opcode.is_non_control then message ++ payload
                   else message
    if f.opcode = .Close then
      ([{ is_final := true, opcode := .Close, mask := none,
          payload := payload }], some (.error .ConnectionClosed))
    else
      let writes : List Frame :=
        if f.opcode = .Ping then
          [{ is_final := true, opcode := .Pong, mask := none,
             payload := payload }]
        else []
      if f.is_final then
        (writes, some (.ok (finishMessage is_text message)))
      else
        let r := read_message_from rest message is_text
        (writes ++ r.1, r.2)

/-- Fuel-indexed chunking; with `fuel ≥ l.length` and `k ≥ 1` this is
Rust's `slice::chunks(k)`: successive sub-slices of `k` elements, the last
one possibly shorter. -/
def chunksOfAux (k : Nat) : Nat → List Nat → List (List Nat)
  | _, [] => []
  | 0, _ => []
  | fuel + 1, l => l.take k :: chunksOfAux k fuel (l.drop k)

/-- Rust's `bytes.chunks(k)` for `k ≥ 1`. -/
def chunksOf (k : Nat) (l : List Nat) : List (List Nat) :=
  chunksOfAux k l.length l

/-- `write_message_to` (lib.rs lines 171-200), as the list of frames written
to the stream: nothing at all for an empty payload; otherwise one frame per
1024-byte chunk, the first carrying the message's opcode, later ones
`Continuation`, and exactly the last marked final. -/
def write_message_to (message : Message) : List Frame :=
  let p := match message with
    | .Text bytes => (OpCode.Text, bytes)
    | .Binary bytes => (OpCode.Binary, bytes)
  let first_opcode := p.1
  let bytes := p.2
  if bytes.length = 0 then []
  else
    let chunks := chunksOf 1024 bytes
    let num_chunks := chunks.length
    (List.range num_chunks).zip chunks |>.map fun ic =>
      { is_final := decide (ic.1 = num_chunks - 1)
        opcode := if ic.1 = 0 then first_opcode else OpCode.Continuation
        mask := none
        payload := ic.2 }

/-! Room registry and broadcast scheduler, from src/backend/src/main.rs.
`HashMap`s are modelled as association lists with unique keys; for the
member map `sockets : HashMap<usize, WebSocket>` only the key set is
tracked (the `WebSocket` values never influence registry shape). -/

/-- `MAX_ROOM_NUMBER` (main.rs line 16). -/
def MAX_ROOM_NUMBER : Nat := 20

/-- RoomData from main.rs: member-id set and the `is_deletable` flag. -/
structure RoomData where
  sockets : List Nat
  is_deletable : Bool
  deriving DecidableEq, Repr

/-- `RoomData::new` (main.rs lines 336-343). -/
def RoomData.new : RoomData :=
  { sockets := [], is_deletable := false }

/-- AppData from main.rs: the room map. -/
structure AppData where
  rooms : List (String × RoomData)
  deriving DecidableEq, Repr

/-- The registry at startup (main.rs lines 39-40): one pre-provisioned
room named "roomForAll". -/
def initialAppData : AppData :=
  { rooms := [("roomForAll", RoomData.new)] }

/-- `HashMap::insert` on the room map: replaces the value of an existing
key, otherwise adds the entry. -/
def insertRoom (name : String) (r : RoomData)
    (rooms : List (String × RoomData)) : List (String × RoomData) :=
  if (rooms.lookup name).isSome then
    rooms.map fun p => if p.1 = name then (name, r) else p
  else rooms ++ [(name, r)]

/-- `HashMap::insert` on a member map's key set: inserting an existing id
replaces its socket, leaving the key set unchanged. -/
def insertId (id : Nat) (l : List Nat) : List Nat :=
  if id ∈ l then l else l ++ [id]

/-- Status from response.rs, together with the `Forbidden` variant that
main.rs (`handle_new_room`, line 222) constructs — the response.rs in the
snapshot predates that variant. -/
inductive Status where
  | SwitchingProtocols
  | OK
  | BadRequest
  | Forbidden
  | NotFound
  | InternalServerError
  deriving DecidableEq, Repr

/-- Response from response.rs, reduced to status and body; the
content-type headers set by the builder play no role in any claim. -/
structure Response where
  status : Status
  body : String
  deriving DecidableEq, Repr

/-- `handle_new_room` (main.rs lines 211-233).  `name` is the 6-character
random alphanumeric token drawn inside the function, passed here as an
argument.  At or above `MAX_ROOM_NUMBER` rooms: a Forbidden capacity
response and no state change; otherwise the room is inserted and an OK
response carries its name (Rust renders the name with `{:?}`, which on the
alphanumeric tokens used is plain quoting). -/
def handle_new_room (name : String) (s : AppData) : AppData × Response :=
  if s.rooms.length ≥ MAX_ROOM_NUMBER then
    (s, { status := .Forbidden,
          body := "\x7b \"status\": 1, \"message\": \"Rooms at capacity.\"\x7d" })
  else
    ({ rooms := insertRoom name RoomData.new s.rooms },
     { status := .OK,
       body := "\x7b \"status\": 0, \"name\": \"" ++ name ++ "\"\x7d" })

/-- The registry mutation of `handle_new_ws` (main.rs lines 249-273), for a
request that passed the upgrade check: look the room up; if absent the
registry is untouched (a 404 is written); if present, insert the randomly
drawn connection `id` into its member map and set `is_deletable := true`. -/
def handle_new_ws (room_name : String) (id : Nat) (s : AppData) : AppData :=
  match s.rooms.lookup room_name with
  | none => s
  | some room =>
    { rooms := s.rooms.map fun p =>
        if p.1 = room_name then
          (room_name, { sockets := insertId id room.sockets,
                        is_deletable := true })
        else p }

/-- One iteration of `msg_listener_task` (main.rs lines 75-121).
`err room id` tells whether polling member `id` of room `room` returned
`Some(Err _)` this tick.  Erroring members are removed from their room;
a room that is then empty and deletable is deleted after the pass.  The
message fan-out (lines 104-112) does not alter the registry and is not
modelled. -/
def msg_listener_tick (err : String → Nat → Bool) (s : AppData) : AppData :=
  let cleaned := s.rooms.map fun p =>
    (p.1, { sockets := p.2.sockets.filter fun id => ! err p.1 id,
            is_deletable := p.2.is_deletable })
  { rooms := cleaned.filter fun p =>
      ! (decide (p.2.sockets.length = 0) && p.2.is_deletable) }

/-- Registry states reachable from startup by room creations, joins and
scheduler ticks. -/
inductive Reachable : AppData → Prop
  | init : Reachable initialAppData
  | gen_room (name : String) (s : AppData) :
      Reachable s → Reachable (handle_new_room name s).1
  | join (room_name : String) (id : Nat) (s : AppData) :
      Reachable s → Reachable (handle_new_ws room_name id s)
  | tick (err : String → Nat → Bool) (s : AppData) :
      Reachable s → Reachable (msg_listener_tick err s)

/-! The handshake accept value (main.rs lines 298-304): base64 of the SHA-1
of the nonce concatenated with the RFC 6455 GUID. -/

/-- 32-bit left rotation. -/
def rotl (n x : Nat) : Nat :=
  ((x <<< n) ||| (x >>> (32 - n))) % 2 ^ 32

/-- SHA-1 message schedule: extend the 16 block words to 80. -/
def sha1w (w16 : List Nat) : List Nat :=
  (List.range 64).foldl (fun w _ =>
    w ++ [rotl 1 ((w.getD (w.length - 3) 0) ^^^ (w.getD (w.length - 8) 0) ^^^
                  (w.getD (w.length - 14) 0) ^^^ (w.getD (w.length - 16) 0))])
    w16

/-- SHA-1 compression of one 64-byte block into the running state. -/
def sha1compress (h : Nat × Nat × Nat × Nat × Nat) (block : List Nat) :
    Nat × Nat × Nat × Nat × Nat :=
  let w := sha1w ((chunksOf 4 block).map beDecode)
  let r := (List.range 80).foldl (fun st i =>
    let a := st.1
    let b := st.2.1
    let c := st.2.2.1
    let d := st.2.2.2.1
    let e := st.2.2.2.2
    let f :=
      if i < 20 then (b &&& c) ||| ((b ^^^ 0xffffffff) &&& d)
      else if i < 40 then b ^^^ c ^^^ d
      else if i < 60 then (b &&& c) ||| (b &&& d) ||| (c &&& d)
      else b ^^^ c ^^^ d
    let k :=
      if i < 20 then 0x5A827999
      else if i < 40 then 0x6ED9EBA1
      else if i < 60 then 0x8F1BBCDC
      else 0xCA62C1D6
    let temp := (rotl 5 a + f + e + k + w.getD i 0) % 2 ^ 32
    (temp, a, rotl 30 b, c, d)) h
  ((h.1 + r.1) % 2 ^ 32, (h.2.1 + r.2.1) % 2 ^ 32,
   (h.2.2.1 + r.2.2.1) % 2 ^ 32, (h.2.2.2.1 + r.2.2.2.1) % 2 ^ 32,
   (h.2.2.2.2 + r.2.2.2.2) % 2 ^ 32)

/-- SHA-1 of a byte list, as 20 digest bytes. -/
def sha1 (msg : List Nat) : List Nat :=
  let padded := msg ++ [0x80] ++
    List.replicate ((119 - msg.length % 64) % 64) 0 ++
    beEncode 8 (msg.length * 8)
  let h := (chunksOf 64 padded).foldl sha1compress
    (0x67452301, 0xEFCDAB89, 0x98BADCFE, 0x10325476, 0xC3D2E1F0)
  beEncode 4 h.1 ++ beEncode 4 h.2.1 ++ beEncode 4 h.2.2.1 ++
    beEncode 4 h.2.2.2.1 ++ beEncode 4 h.2.2.2.2

/-- The standard base64 alphabet character for a 6-bit value. -/
def b64char (n : Nat) : Char :=
  "ABCDEFGHIJKLMNOPQRSTUVWXYZabcdefghijklmnopqrstuvwxyz0123456789+/".toList.getD n 'A'

/-- Standard base64 encoding (with padding), three input bytes at a time. -/
def base64chars : List Nat → List Char
  | a :: b :: c :: rest =>
    let x := a * 65536 + b * 256 + c
    b64char (x / 262144) :: b64char (x / 4096 % 64) ::
      b64char (x / 64 % 64) :: b64char (x % 64) :: base64chars rest
  | [a, b] =>
    let x := a * 65536 + b * 256
    [b64char (x / 262144), b64char (x / 4096 % 64), b64char (x / 64 % 64), '=']
  | [a] =>
    let x := a * 65536
    [b64char (x / 262144), b64char (x / 4096 % 64), '=', '=']
  | [] => []

/-- `base64::encode`. -/
def base64encode (bytes : List Nat) : String :=
  String.mk (base64chars bytes)

/-- `get_websocket_accept_hash` (main.rs lines 298-304).  All inputs are
ASCII, so a character's code point is its UTF-8 byte. -/
def get_websocket_accept_hash (nonce : String) : String :=
  let concat := nonce ++ "258EAFA5-E914-47DA-95CA-C5AB0DC85B11"
  base64encode (sha1 (concat.toList.map Char.toNat))

/-- The payload of a frame as the reassembler sees it: demasked when a mask
key is present (lib.rs lines 132-134). -/
def demaskPayload (f : Frame) : List Nat :=
  match f.mask with
  | some m => demask f.payload m
  | none => f.payload

/-- The byte payload of an outbound message (for `Text`, the UTF-8 bytes
that `into_bytes` yields). -/
def messageBytes : Message → List Nat
  | .Text bytes => bytes
  | .Binary bytes => bytes

/-- The opcode chosen for the first fragment of an outbound message
(lib.rs lines 172-175). -/
def messageOpcode : Message → OpCode
  | .Text _ => .Text
  | .Binary _ => .Binary

/-- A frame as `OpCode::try_from` can actually produce it, with a payload
length representable in the 64-bit length field. -/
def Frame.Valid (f : Frame) : Prop :=
  f.opcode.Valid ∧ f.payload.length < 2 ^ 64

/-! Theorems.  Claim theorems are named `cN…`; everything else is shared
infrastructure. -/

set_option maxRecDepth 100000 in
/-- C10: for the canonical RFC 6455 key, the computed Sec-WebSocket-Accept
value — base64 of the SHA-1 of the key concatenated with the fixed GUID —
equals the canonical answer. -/
theorem c10_accept_hash :
    get_websocket_accept_hash "dGhlIHNhbXBsZSBub25jZQ==" =
      "s3pPLMBiTxaQ9kYGzzhZRbK+xOo=" := by
  decide

/-- C1 (code evaluation at the failing input): a final Ping frame between a
non-final Text fragment "Hel" and its final continuation "lo" makes
`read_message_from` echo the Pong but then BREAK — the `is_final` check at
the end of the loop fires for the Ping — so the partial message "Hel" is
returned and the continuation is never consumed, contradicting the spec's
promise that a ping does not terminate an in-progress reassembly. -/
theorem c1_ping_truncates :
    read_message_from
      [{ is_final := false, opcode := .Text, mask := none,
         payload := [72, 101, 108] },
       { is_final := true, opcode := .Ping, mask := none, payload := [112] },
       { is_final := true, opcode := .Continuation, mask := none,
         payload := [108, 111] }] [] none =
      ([{ is_final := true, opcode := .Pong, mask := none, payload := [112] }],
       some (.ok (.Text [72, 101, 108]))) ∧
    Message.Text [72, 101, 108] ≠ Message.Text [72, 101, 108, 108, 111] := by
  constructor
  · rfl
  · decide

/-- C3 (code evaluation at the failing input): a source announcing a 5-byte
Text payload but ending after one payload byte parses SUCCESSFULLY — the
code reads with `read` into zero-initialized buffers and never checks the
byte counts, so the missing bytes appear as zeros instead of a parse
error; an entirely empty source likewise parses as a frame. -/
theorem c3_short_read_no_error :
    Frame.try_parse_from [0x81, 0x05, 0x48] =
      .ok ({ is_final := true, opcode := .Text, mask := none,
             payload := [0x48, 0, 0, 0, 0] }, []) ∧
    Frame.try_parse_from [] =
      .ok ({ is_final := false, opcode := .Continuation, mask := none,
             payload := [] }, []) := by
  constructor
  · rfl
  · rfl

lemma lookup_cons_self (a : String) (v : RoomData)
    (t : List (String × RoomData)) :
    List.lookup a ((a, v) :: t) = some v := by
  simp [List.lookup]

lemma lookup_cons_ne (a k : String) (h : a ≠ k) (v : RoomData)
    (t : List (String × RoomData)) :
    List.lookup a ((k, v) :: t) = List.lookup a t := by
  have hb : (a == k) = false := by simp [h]
  simp [List.lookup, hb]

lemma lookup_map_replace (name : String) (r : RoomData) :
    ∀ l : List (String × RoomData), (l.lookup name).isSome →
      ((l.map fun p => if p.1 = name then (name, r) else p).lookup name) =
        some r := by
  intro l
  induction l with
  | nil => intro h; simp [List.lookup] at h
  | cons hd tl ih =>
    intro h
    obtain ⟨k, v⟩ := hd
    by_cases hk : name = k
    · subst hk
      rw [List.map_cons]
      have hc : ((name, v).1 = name) := rfl
      rw [if_pos hc, lookup_cons_self]
    · have hk2 : ¬((k, v).1 = name) := fun hh => hk hh.symm
      rw [lookup_cons_ne name k hk] at h
      rw [List.map_cons, if_neg hk2, lookup_cons_ne name k hk]
      exact ih h

lemma lookup_append_single (name : String) (r : RoomData) :
    ∀ l : List (String × RoomData), l.lookup name = none →
      ((l ++ [(name, r)]).lookup name) = some r := by
  intro l
  induction l with
  | nil => intro _; simp [List.lookup]
  | cons hd tl ih =>
    intro h
    obtain ⟨k, v⟩ := hd
    by_cases hk : name = k
    · subst hk
      rw [lookup_cons_self] at h
      exact absurd h (by simp)
    · rw [lookup_cons_ne name k hk] at h
      rw [List.cons_append, lookup_cons_ne name k hk]
      exact ih h

lemma lookup_insertRoom (name : String) (r : RoomData)
    (l : List (String × RoomData)) :
    (insertRoom name r l).lookup name = some r := by
  cases ho : l.lookup name with
  | some v =>
    unfold insertRoom
    rw [ho]
    simp only [Option.isSome_some, if_true]
    exact lookup_map_replace name r l (by rw [ho]; rfl)
  | none =>
    unfold insertRoom
    rw [ho]
    simp only [Option.isSome_none, Bool.false_eq_true, if_false]
    exact lookup_append_single name r l ho

lemma tick_lookup_none_aux (err : String → Nat → Bool) (name : String)
    (room : RoomData) :
    ∀ l : List (String × RoomData),
      l.lookup name = some room →
      (((l.map fun p =>
            (p.1, ({ sockets := p.2.sockets.filter fun id => ! err p.1 id,
                     is_deletable := p.2.is_deletable } : RoomData))).filter
          fun p => ! (decide (p.2.sockets.length = 0) &&
                      p.2.is_deletable)).lookup name) = none →
      (room.sockets.filter fun id => ! err name id) = [] ∧
        room.is_deletable = true := by
  intro l
  induction l with
  | nil => intro h _; simp [List.lookup] at h
  | cons hd tl ih =>
    intro hl hn
    obtain ⟨k, v⟩ := hd
    by_cases hk : name = k
    · subst hk
      rw [lookup_cons_self] at hl
      have hv : v = room := by injection hl
      subst hv
      rw [List.map_cons, List.filter_cons] at hn
      split at hn
      · rw [lookup_cons_self] at hn
        exact absurd hn (by simp)
      · next hdrop =>
        have hx : (decide ((v.sockets.filter fun id =>
            ! err name id).length = 0) && v.is_deletable) = true := by
          revert hdrop
          cases hb : (decide ((v.sockets.filter fun id =>
              ! err name id).length = 0) && v.is_deletable) <;> simp
        rw [Bool.and_eq_true, decide_eq_true_eq] at hx
        exact ⟨List.length_eq_zero.mp hx.1, hx.2⟩
    · rw [lookup_cons_ne name k hk] at hl
      rw [List.map_cons, List.filter_cons] at hn
      split at hn
      · rw [lookup_cons_ne name k hk] at hn
        exact ih hl hn
      · exact ih hl hn
/-- C4 counterexample: a join request to the pre-provisioned default room
"roomForAll" sets its deletable flag to true (main.rs line 272 does so for
whatever room was joined), and a subsequent scheduler tick in which its
only member errors removes the default room from the registry — both
states are reachable, so the default room neither keeps `deletable` false
nor is it protected from removal. -/
theorem c4_counterexample :
    Reachable (handle_new_ws "roomForAll" 5 initialAppData) ∧
    (handle_new_ws "roomForAll" 5 initialAppData).rooms.lookup "roomForAll" =
      some { sockets := [5], is_deletable := true } ∧
    Reachable (msg_listener_tick (fun _ _ => true)
      (handle_new_ws "roomForAll" 5 initialAppData)) ∧
    (msg_listener_tick (fun _ _ => true)
      (handle_new_ws "roomForAll" 5 initialAppData)).rooms.lookup
        "roomForAll" = none := by
  refine ⟨Reachable.join _ _ _ Reachable.init, by decide,
    Reachable.tick _ _ (Reachable.join _ _ _ Reachable.init), by decide⟩

/-- C4 amended: dynamically created rooms start with `deletable` false
(`RoomData::new`); a join request to an existing room — the default room
included — sets that room's `deletable` flag to true; and a scheduler tick
removes a room only when its member map (after evicting this tick's
erroring members) is empty and its `deletable` flag is true.  The default
room is therefore removable once it has been joined and later empties. -/
theorem c4_amended :
    RoomData.new.is_deletable = false ∧
    (∀ (room_name : String) (id : Nat) (s : AppData) (room : RoomData),
      s.rooms.lookup room_name = some room →
      (handle_new_ws room_name id s).rooms.lookup room_name =
        some { sockets := insertId id room.sockets, is_deletable := true }) ∧
    (∀ (err : String → Nat → Bool) (s : AppData) (name : String)
        (room : RoomData),
      s.rooms.lookup name = some room →
      (msg_listener_tick err s).rooms.lookup name = none →
      (room.sockets.filter fun id => ! err name id) = [] ∧
        room.is_deletable = true) := by
  refine ⟨rfl, ?_, ?_⟩
  · intro room_name id s room hl
    unfold handle_new_ws
    rw [hl]
    exact lookup_map_replace room_name _ s.rooms (by simp [hl])
  · intro err s name room hl hn
    unfold msg_listener_tick at hn
    exact tick_lookup_none_aux err name room s.rooms hl hn

/-- C4 witness: the amended theorem applied at the default room — a join
marks it deletable, and the tick deletion condition instantiated at the
resulting one-member room. -/
theorem c4_amended_witness :
    (handle_new_ws "roomForAll" 5 initialAppData).rooms.lookup "roomForAll" =
      some { sockets := insertId 5 RoomData.new.sockets,
             is_deletable := true } ∧
    (((RoomData.mk [5] true).sockets.filter fun id =>
        ! (fun (_ : String) (_ : Nat) => true) "roomForAll" id) = [] ∧
      (RoomData.mk [5] true).is_deletable = true) :=
  ⟨c4_amended.2.1 "roomForAll" 5 initialAppData RoomData.new (by decide),
   c4_amended.2.2 (fun _ _ => true)
     (handle_new_ws "roomForAll" 5 initialAppData) "roomForAll"
     ⟨[5], true⟩ (by decide) (by decide)⟩

/-- C6 counterexample: in a reachable registry well below capacity that
already holds a room named "abc" with one member, a creation request whose
random token collides with "abc" does NOT add a room — `HashMap::insert`
replaces the existing room, wiping its member — so "below capacity it
inserts exactly one new room" fails. -/
theorem c6_counterexample :
    Reachable (handle_new_ws "abc" 7 (handle_new_room "abc" initialAppData).1) ∧
    (handle_new_ws "abc" 7
      (handle_new_room "abc" initialAppData).1).rooms.length <
      MAX_ROOM_NUMBER ∧
    (handle_new_ws "abc" 7
      (handle_new_room "abc" initialAppData).1).rooms.lookup "abc" =
      some { sockets := [7], is_deletable := true } ∧
    (handle_new_room "abc" (handle_new_ws "abc" 7
      (handle_new_room "abc" initialAppData).1)).1.rooms.length =
      (handle_new_ws "abc" 7
        (handle_new_room "abc" initialAppData).1).rooms.length ∧
    (handle_new_room "abc" (handle_new_ws "abc" 7
      (handle_new_room "abc" initialAppData).1)).1.rooms.lookup "abc" =
      some { sockets := [], is_deletable := false } := by
  refine ⟨Reachable.join _ _ _ (Reachable.gen_room _ _ Reachable.init),
    by decide, by decide, by decide, by decide⟩

/-- C6 amended: a creation request with the registry at or above the
maximum room count (20) returns the structured capacity failure and leaves
the registry completely unchanged; below capacity it returns a success
payload containing the generated name and the registry then maps that name
to a fresh empty room — when the generated name does not collide with an
existing room this appends exactly one new room and modifies no existing
one, while a colliding name replaces the existing room of that name. -/
theorem c6_amended (name : String) (s : AppData) :
    (MAX_ROOM_NUMBER ≤ s.rooms.length →
      handle_new_room name s =
        (s, { status := .Forbidden,
              body := "\x7b \"status\": 1, \"message\": \"Rooms at capacity.\"\x7d" })) ∧
    (s.rooms.length < MAX_ROOM_NUMBER →
      (handle_new_room name s).2 =
        { status := .OK,
          body := "\x7b \"status\": 0, \"name\": \"" ++ name ++ "\"\x7d" } ∧
      (handle_new_room name s).1.rooms.lookup name = some RoomData.new ∧
      (s.rooms.lookup name = none →
        (handle_new_room name s).1.rooms = s.rooms ++ [(name, RoomData.new)])) := by
  constructor
  · intro h
    unfold handle_new_room
    rw [if_pos h]
  · intro h
    have hlt : ¬(s.rooms.length ≥ MAX_ROOM_NUMBER) := by omega
    unfold handle_new_room
    rw [if_neg hlt]
    refine ⟨rfl, lookup_insertRoom name RoomData.new s.rooms, ?_⟩
    intro hnone
    unfold insertRoom
    rw [if_neg (by simp [hnone])]

/-- C6 witness: the amended theorem applied below capacity with a fresh
name at the startup registry. -/
theorem c6_amended_witness :
    (handle_new_room "abc" initialAppData).2 =
      { status := .OK,
        body := "\x7b \"status\": 0, \"name\": \"" ++ "abc" ++ "\"\x7d" } ∧
    (handle_new_room "abc" initialAppData).1.rooms =
      initialAppData.rooms ++ [("abc", RoomData.new)] :=
  ⟨((c6_amended "abc" initialAppData).2 (by decide)).1,
   ((c6_amended "abc" initialAppData).2 (by decide)).2.2 (by decide)⟩

/-- C7: whenever the next frame is a Close frame — any number of non-final,
non-Close frames (data fragments, pings, …) having been consumed before it,
i.e. also mid-fragmentation — `read_message_from` reports the
connection-closed error, and among everything it wrote back to the stream
there is exactly one Close frame, final and carrying the received Close
frame's (demasked) payload. -/
theorem c7_close_echo (fs : List Frame) (c : Frame) (rest : List Frame)
    (hfs : ∀ f ∈ fs, f.is_final = false ∧ f.opcode ≠ .Close)
    (hc : c.opcode = .Close) (message : List Nat) (is_text : Option Bool) :
    (read_message_from (fs ++ c :: rest) message is_text).2 =
      some (.error .ConnectionClosed) ∧
    (read_message_from (fs ++ c :: rest) message is_text).1.filter
        (fun w => w.opcode == .Close) =
      [{ is_final := true, opcode := .Close, mask := none,
         payload := demaskPayload c }] := by
  induction fs generalizing message is_text with
  | nil =>
    simp only [List.nil_append]
    simp [read_message_from, hc, demaskPayload]
  | cons f fs ih =>
    obtain ⟨hfin, hnc⟩ := hfs f (by simp)
    have hfs' : ∀ g ∈ fs, g.is_final = false ∧ g.opcode ≠ .Close :=
      fun g hg => hfs g (by simp [hg])
    simp only [List.cons_append]
    rw [read_message_from]
    simp only [if_neg hnc, hfin, Bool.false_eq_true, if_false]
    refine ⟨(ih hfs' _ _).1, ?_⟩
    rw [List.filter_append, (ih hfs' _ _).2]
    by_cases hp : f.opcode = OpCode.Ping
    · simp [hp]
    · simp [hp]

/-- C7 witness: the theorem applied to a masked Close arriving right after
a non-final Text fragment. -/
theorem c7_close_echo_witness :
    (read_message_from
      ([{ is_final := false, opcode := .Text, mask := none, payload := [72] }] ++
        { is_final := true, opcode := .Close, mask := some (1, 2, 3, 4),
          payload := [5, 6] } :: []) [] none).2 =
      some (.error .ConnectionClosed) ∧
    (read_message_from
      ([{ is_final := false, opcode := .Text, mask := none, payload := [72] }] ++
        { is_final := true, opcode := .Close, mask := some (1, 2, 3, 4),
          payload := [5, 6] } :: []) [] none).1.filter
        (fun w => w.opcode == .Close) =
      [{ is_final := true, opcode := .Close, mask := none,
         payload := demaskPayload
           { is_final := true, opcode := .Close, mask := some (1, 2, 3, 4),
             payload := [5, 6] } }] :=
  c7_close_echo
    [{ is_final := false, opcode := .Text, mask := none, payload := [72] }]
    { is_final := true, opcode := .Close, mask := some (1, 2, 3, 4),
      payload := [5, 6] } [] (by decide) rfl [] none

lemma chunksOfAux_join (k : Nat) (hk : 1 ≤ k) :
    ∀ (fuel : Nat) (l : List Nat), l.length ≤ fuel →
      (chunksOfAux k fuel l).flatten = l := by
  intro fuel
  induction fuel with
  | zero =>
    intro l hl
    have : l = [] := List.eq_nil_of_length_eq_zero (by omega)
    subst this
    rfl
  | succ n ih =>
    intro l hl
    cases l with
    | nil => rfl
    | cons x t =>
      simp only [chunksOfAux, List.flatten_cons]
      have hd : (List.drop k (x :: t)).length ≤ n := by
        rw [List.length_drop]
        simp only [List.length_cons] at hl ⊢
        omega
      rw [ih _ hd]
      exact List.take_append_drop k (x :: t)

lemma chunksOf_join (k : Nat) (hk : 1 ≤ k) (l : List Nat) :
    (chunksOf k l).flatten = l :=
  chunksOfAux_join k hk l.length l le_rfl

lemma zipRangeFrames_map_payload (op : OpCode) (chunks : List (List Nat)) :
    (((List.range chunks.length).zip chunks).map fun ic =>
      ({ is_final := decide (ic.1 = chunks.length - 1),
         opcode := if ic.1 = 0 then op else .Continuation,
         mask := none, payload := ic.2 } : Frame)).map Frame.payload =
      chunks := by
  rw [List.map_map]
  have : (Frame.payload ∘ fun ic : Nat × List Nat =>
      ({ is_final := decide (ic.1 = chunks.length - 1),
         opcode := if ic.1 = 0 then op else .Continuation,
         mask := none, payload := ic.2 } : Frame)) = Prod.snd := by
    funext ic
    rfl
  rw [this]
  exact List.map_snd_zip _ _ (by simp)
lemma mapped_frames_spec (op : OpCode) (chunks : List (List Nat)) :
    (((List.range chunks.length).zip chunks).map fun ic =>
      ({ is_final := decide (ic.1 = chunks.length - 1),
         opcode := if ic.1 = 0 then op else .Continuation,
         mask := none, payload := ic.2 } : Frame)).map Frame.payload =
        chunks ∧
    (∀ i, (hi : i < (((List.range chunks.length).zip chunks).map fun ic =>
      ({ is_final := decide (ic.1 = chunks.length - 1),
         opcode := if ic.1 = 0 then op else .Continuation,
         mask := none, payload := ic.2 } : Frame)).length) →
      ((((List.range chunks.length).zip chunks).map fun ic =>
      ({ is_final := decide (ic.1 = chunks.length - 1),
         opcode := if ic.1 = 0 then op else .Continuation,
         mask := none, payload := ic.2 } : Frame)).get ⟨i, hi⟩).opcode =
        (if i = 0 then op else .Continuation) ∧
      (((((List.range chunks.length).zip chunks).map fun ic =>
      ({ is_final := decide (ic.1 = chunks.length - 1),
         opcode := if ic.1 = 0 then op else .Continuation,
         mask := none, payload := ic.2 } : Frame)).get ⟨i, hi⟩).is_final = true ↔
        i = (((List.range chunks.length).zip chunks).map fun ic =>
      ({ is_final := decide (ic.1 = chunks.length - 1),
         opcode := if ic.1 = 0 then op else .Continuation,
         mask := none, payload := ic.2 } : Frame)).length - 1) ∧
      ((((List.range chunks.length).zip chunks).map fun ic =>
      ({ is_final := decide (ic.1 = chunks.length - 1),
         opcode := if ic.1 = 0 then op else .Continuation,
         mask := none, payload := ic.2 } : Frame)).get ⟨i, hi⟩).mask = none) := by
  refine ⟨zipRangeFrames_map_payload op chunks, ?_⟩
  intro i hi
  have hlen : i < chunks.length := by
    simpa using hi
  simp [List.get_eq_getElem, List.getElem_map, List.getElem_zip, List.getElem_range]
/-- C9: an outbound message with an empty payload produces no frame at all;
a non-empty payload is split into 1024-byte chunks (which concatenate back
to the payload), one frame per chunk, the first frame carrying the
message's Text/Binary opcode and all later frames Continuation, with
exactly the last frame marked final, and no frame masked. -/
theorem c9_write_message (m : Message) :
    (messageBytes m = [] → write_message_to m = []) ∧
    (messageBytes m ≠ [] →
      (write_message_to m).map Frame.payload = chunksOf 1024 (messageBytes m) ∧
      (chunksOf 1024 (messageBytes m)).flatten = messageBytes m ∧
      (∀ i, (hi : i < (write_message_to m).length) →
        ((write_message_to m).get ⟨i, hi⟩).opcode =
          (if i = 0 then messageOpcode m else .Continuation) ∧
        (((write_message_to m).get ⟨i, hi⟩).is_final = true ↔
          i = (write_message_to m).length - 1) ∧
        ((write_message_to m).get ⟨i, hi⟩).mask = none)) := by
  have flat : ∀ bytes : List Nat, (chunksOf 1024 bytes).flatten = bytes :=
    fun bytes => chunksOf_join 1024 (by norm_num) bytes
  cases m with
  | Text b =>
    constructor
    · intro h
      simp only [messageBytes] at h
      subst h
      rfl
    · intro h
      simp only [messageBytes] at h ⊢
      have hlen : ¬(b.length = 0) := by
        simpa [List.length_eq_zero] using h
      have hW : write_message_to (.Text b) =
          ((List.range (chunksOf 1024 b).length).zip (chunksOf 1024 b)).map
            fun ic =>
              ({ is_final := decide (ic.1 = (chunksOf 1024 b).length - 1),
                 opcode := if ic.1 = 0 then OpCode.Text else .Continuation,
                 mask := none, payload := ic.2 } : Frame) := by
        simp only [write_message_to, if_neg hlen]
      refine ⟨?_, flat b, ?_⟩
      · rw [hW]
        exact (mapped_frames_spec .Text _).1
      · simp only [messageOpcode]
        rw [hW]
        exact (mapped_frames_spec .Text _).2
  | Binary b =>
    constructor
    · intro h
      simp only [messageBytes] at h
      subst h
      rfl
    · intro h
      simp only [messageBytes] at h ⊢
      have hlen : ¬(b.length = 0) := by
        simpa [List.length_eq_zero] using h
      have hW : write_message_to (.Binary b) =
          ((List.range (chunksOf 1024 b).length).zip (chunksOf 1024 b)).map
            fun ic =>
              ({ is_final := decide (ic.1 = (chunksOf 1024 b).length - 1),
                 opcode := if ic.1 = 0 then OpCode.Binary else .Continuation,
                 mask := none, payload := ic.2 } : Frame) := by
        simp only [write_message_to, if_neg hlen]
      refine ⟨?_, flat b, ?_⟩
      · rw [hW]
        exact (mapped_frames_spec .Binary _).1
      · simp only [messageOpcode]
        rw [hW]
        exact (mapped_frames_spec .Binary _).2

/-- C9 witness: the theorem applied to an empty Binary message (no frame at
all is written) and to a short Text message (one frame per chunk). -/
theorem c9_write_message_witness :
    write_message_to (.Binary []) = [] ∧
    (write_message_to (.Text [72, 105])).map Frame.payload =
      chunksOf 1024 (messageBytes (.Text [72, 105])) :=
  ⟨(c9_write_message (.Binary [])).1 rfl,
   ((c9_write_message (.Text [72, 105])).2 (by decide)).1⟩


lemma readFill_exact (k : Nat) (xs rest : List Nat) (h : xs.length = k) :
    readFill k (xs ++ rest) = (xs, rest) := by
  subst h
  unfold readFill
  rw [List.take_left, List.drop_left]
  simp

lemma beEncode_length (k n : Nat) : (beEncode k n).length = k := by
  induction k generalizing n with
  | zero => rfl
  | succ m ih => simp [beEncode, ih]

lemma beDecode_foldl (l : List Nat) (acc : Nat) :
    l.foldl (fun a b => a * 256 + b) acc =
      acc * 256 ^ l.length + l.foldl (fun a b => a * 256 + b) 0 := by
  induction l generalizing acc with
  | nil => simp
  | cons x t ih =>
    simp only [List.foldl_cons, List.length_cons, Nat.zero_mul, Nat.zero_add]
    rw [ih (acc * 256 + x), ih x]
    ring

lemma mod_mul_split (p n : Nat) :
    n % (p * 256) = (n / p % 256) * p + n % p := by
  conv_lhs => rw [← Nat.div_add_mod (n % (p * 256)) p]
  rw [Nat.mod_mul_right_div_self, Nat.mod_mod_of_dvd _ ⟨256, rfl⟩]
  ring

lemma beDecode_beEncode (k n : Nat) : beDecode (beEncode k n) = n % 256 ^ k := by
  induction k generalizing n with
  | zero => simp [beEncode, beDecode, Nat.mod_one]
  | succ m ih =>
    simp only [beEncode, beDecode, List.foldl_cons, Nat.zero_mul, Nat.zero_add]
    rw [beDecode_foldl]
    have h1 : (beEncode m n).foldl (fun a b => a * 256 + b) 0 = n % 256 ^ m := ih n
    rw [beEncode_length, h1]
    have h2 : 256 ^ (m + 1) = 256 ^ m * 256 := by ring
    rw [h2, mod_mul_split]

lemma shiftRight7_eq_zero : ∀ t < 128, t >>> 7 = 0 := by decide

lemma lor128_shiftRight7 : ∀ t < 128, (128 ||| t) >>> 7 = 1 := by decide

lemma lorR128_shiftRight7 : ∀ t < 128, (t ||| 128) >>> 7 = 1 := by decide

lemma and15_self : ∀ t < 16, t &&& 15 = t := by decide

lemma lor128_and15 : ∀ t < 16, (128 ||| t) &&& 15 = t := by decide

lemma and127_self : ∀ t < 128, t &&& 127 = t := by decide

lemma lorR128_and127 : ∀ t < 128, (t ||| 128) &&& 127 = t := by decide

lemma zero_lor_self (t : Nat) : 0 ||| t = t := Nat.zero_or t

lemma lor_zero_self (t : Nat) : t ||| 0 = t := Nat.or_zero t


lemma OpCode.toNat_lt (o : OpCode) (h : o.Valid) : o.toNat < 16 := by
  cases o <;> simp_all [OpCode.toNat, OpCode.Valid] <;> omega

lemma OpCode.try_from_toNat (o : OpCode) (h : o.Valid) :
    OpCode.try_from o.toNat = .ok o := by
  cases o with
  | NonControlReserved c =>
    obtain ⟨h1, h2⟩ := h
    simp only [OpCode.toNat]
    unfold OpCode.try_from
    rw [if_neg (by omega), if_neg (by omega), if_neg (by omega),
        if_neg (by omega), if_neg (by omega), if_neg (by omega),
        if_pos ⟨h1, h2⟩]
  | ControlReserved c =>
    obtain ⟨h1, h2⟩ := h
    simp only [OpCode.toNat]
    unfold OpCode.try_from
    rw [if_neg (by omega), if_neg (by omega), if_neg (by omega),
        if_neg (by omega), if_neg (by omega), if_neg (by omega),
        if_neg (by omega), if_pos ⟨h1, h2⟩]
  | Continuation => rfl
  | Text => rfl
  | Binary => rfl
  | Close => rfl
  | Ping => rfl
  | Pong => rfl

lemma readFill_two (x y : Nat) (t : List Nat) :
    readFill 2 (x :: y :: t) = ([x, y], t) :=
  readFill_exact 2 [x, y] t rfl

lemma readFill_four (a b c d : Nat) (t : List Nat) :
    readFill 4 (a :: b :: c :: d :: t) = ([a, b, c, d], t) :=
  readFill_exact 4 [a, b, c, d] t rfl

lemma parse_write_roundtrip (f : Frame) (rest : List Nat) (hv : f.Valid) :
    Frame.try_parse_from (f.write_to ++ rest) = .ok (f, rest) := by
  obtain ⟨hop, hlen⟩ := hv
  obtain ⟨fin, op, mk, payload⟩ := f
  simp only [Frame.Valid] at hop hlen
  have hopn : op.toNat < 16 := OpCode.toNat_lt op hop
  have hb0and : ((if fin then 0x80 else 0x0) ||| op.toNat) &&& 0x0f = op.toNat := by
    cases fin
    · simp only [if_neg Bool.false_ne_true, Nat.zero_or]
      exact and15_self op.toNat hopn
    · simp only [if_pos rfl]
      exact lor128_and15 op.toNat hopn
  have hb0shift : ((if fin then 0x80 else 0x0) ||| op.toNat) >>> 7 = if fin then 1 else 0 := by
    cases fin
    · simp only [if_neg Bool.false_ne_true, Nat.zero_or]
      exact shiftRight7_eq_zero op.toNat (by omega)
    · simp only [if_pos rfl]
      exact lor128_shiftRight7 op.toNat (by omega)
  have hfineq : (((if fin then 0x80 else 0x0) ||| op.toNat) >>> 7 != 0) = fin := by
    rw [hb0shift]
    cases fin <;> rfl
  rcases mk with _ | ⟨⟨a, b, c, d⟩⟩
  · -- unmasked
    by_cases h1 : payload.length < 126
    · have hmod : payload.length % 256 = payload.length := Nat.mod_eq_of_lt (by omega)
      have hw : Frame.write_to ⟨fin, op, none, payload⟩ ++ rest =
          ((if fin then 0x80 else 0x0) ||| op.toNat) :: payload.length :: (payload ++ rest) := by
        simp [Frame.write_to, if_pos h1, hmod, Nat.or_zero]
      rw [hw]
      unfold Frame.try_parse_from
      rw [readFill_two]
      simp only [List.getD_cons_zero, List.getD_cons_succ]
      rw [hb0and, OpCode.try_from_toNat op hop]
      have hand : payload.length &&& 127 = payload.length :=
        and127_self _ (by omega)
      have hshift : payload.length >>> 7 = 0 :=
        shiftRight7_eq_zero _ (by omega)
      rw [hand, if_neg (by omega : ¬(payload.length = 126)),
          if_neg (by omega : ¬(payload.length = 127)), hshift]
      have hfalse : ((0 : Nat) != 0) = false := rfl
      rw [hfalse]
      simp only [Bool.false_eq_true, if_false]
      rw [readFill_exact payload.length payload rest rfl, hfineq]
    · by_cases h2 : payload.length ≤ 0x7fff
      · have hw : Frame.write_to ⟨fin, op, none, payload⟩ ++ rest =
            ((if fin then 0x80 else 0x0) ||| op.toNat) :: 126 ::
              (beEncode 2 (payload.length % 2 ^ 16) ++ (payload ++ rest)) := by
          simp [Frame.write_to, if_neg h1, Nat.or_zero,
            (⟨by omega, h2⟩ : 126 ≤ payload.length ∧ payload.length ≤ 0x7fff)]
        rw [hw]
        unfold Frame.try_parse_from
        rw [readFill_two]
        simp only [List.getD_cons_zero, List.getD_cons_succ]
        rw [hb0and, OpCode.try_from_toNat op hop]
        simp only []
        have hand : (126 : Nat) &&& 127 = 126 := rfl
        rw [hand, if_pos (rfl : (126 : Nat) = 126)]
        rw [readFill_exact 2 (beEncode 2 (payload.length % 2 ^ 16))
          (payload ++ rest) (beEncode_length 2 _)]
        have hdec : beDecode (beEncode 2 (payload.length % 2 ^ 16)) =
            payload.length := by
          rw [beDecode_beEncode]
          norm_num
          omega
        rw [hdec]
        have hm : ((126 : Nat) >>> 7 != 0) = false := rfl
        rw [hm]
        simp only [Bool.false_eq_true, if_false]
        rw [readFill_exact payload.length payload rest rfl, hfineq]
      · have hw : Frame.write_to ⟨fin, op, none, payload⟩ ++ rest =
            ((if fin then 0x80 else 0x0) ||| op.toNat) :: 127 ::
              (beEncode 8 (payload.length % 2 ^ 64) ++ (payload ++ rest)) := by
          have hc2 : ¬(126 ≤ payload.length ∧ payload.length ≤ 0x7fff) := by
            omega
          simp [Frame.write_to, if_neg h1, if_neg hc2, Nat.or_zero]
        rw [hw]
        unfold Frame.try_parse_from
        rw [readFill_two]
        simp only [List.getD_cons_zero, List.getD_cons_succ]
        rw [hb0and, OpCode.try_from_toNat op hop]
        simp only []
        have hand : (127 : Nat) &&& 127 = 127 := rfl
        rw [hand, if_neg (by norm_num : ¬(127 : Nat) = 126),
          if_pos (rfl : (127 : Nat) = 127)]
        rw [readFill_exact 8 (beEncode 8 (payload.length % 2 ^ 64))
          (payload ++ rest) (beEncode_length 8 _)]
        have hdec : beDecode (beEncode 8 (payload.length % 2 ^ 64)) =
            payload.length := by
          rw [beDecode_beEncode]
          norm_num
          omega
        rw [hdec]
        have hm : ((127 : Nat) >>> 7 != 0) = false := rfl
        rw [hm]
        simp only [Bool.false_eq_true, if_false]
        rw [readFill_exact payload.length payload rest rfl, hfineq]
  · by_cases h1 : payload.length < 126
    · have hmod : payload.length % 256 = payload.length := Nat.mod_eq_of_lt (by omega)
      have hw : Frame.write_to ⟨fin, op, some (a, b, c, d), payload⟩ ++ rest =
          ((if fin then 0x80 else 0x0) ||| op.toNat) :: (payload.length ||| 128) ::
            a :: b :: c :: d :: (payload ++ rest) := by
        simp [Frame.write_to, if_pos h1, hmod]
      rw [hw]
      unfold Frame.try_parse_from
      rw [readFill_two]
      simp only [List.getD_cons_zero, List.getD_cons_succ]
      rw [hb0and, OpCode.try_from_toNat op hop]
      simp only []
      have hand : (payload.length ||| 128) &&& 127 = payload.length :=
        lorR128_and127 _ (by omega)
      rw [hand, if_neg (by omega : ¬(payload.length = 126)),
        if_neg (by omega : ¬(payload.length = 127))]
      have hshift : (payload.length ||| 128) >>> 7 = 1 :=
        lorR128_shiftRight7 _ (by omega)
      rw [hshift]
      rw [if_pos (by decide : ((1 : Nat) != 0) = true)]
      rw [readFill_four]
      simp only [List.getD_cons_zero, List.getD_cons_succ]
      rw [readFill_exact payload.length payload rest rfl, hfineq]
    · by_cases h2 : payload.length ≤ 0x7fff
      · have hw : Frame.write_to ⟨fin, op, some (a, b, c, d), payload⟩ ++ rest =
            ((if fin then 0x80 else 0x0) ||| op.toNat) :: 254 ::
              (beEncode 2 (payload.length % 2 ^ 16) ++
                (a :: b :: c :: d :: (payload ++ rest))) := by
          simp [Frame.write_to, if_neg h1,
            (⟨by omega, h2⟩ : 126 ≤ payload.length ∧ payload.length ≤ 0x7fff)]
        rw [hw]
        unfold Frame.try_parse_from
        rw [readFill_two]
        simp only [List.getD_cons_zero, List.getD_cons_succ]
        rw [hb0and, OpCode.try_from_toNat op hop]
        simp only []
        have hand : (254 : Nat) &&& 127 = 126 := rfl
        rw [hand, if_pos (rfl : (126 : Nat) = 126)]
        rw [readFill_exact 2 (beEncode 2 (payload.length % 2 ^ 16))
          (a :: b :: c :: d :: (payload ++ rest)) (beEncode_length 2 _)]
        have hdec : beDecode (beEncode 2 (payload.length % 2 ^ 16)) =
            payload.length := by
          rw [beDecode_beEncode]
          norm_num
          omega
        rw [hdec]
        rw [if_pos (by decide : ((254 : Nat) >>> 7 != 0) = true)]
        rw [readFill_four]
        simp only [List.getD_cons_zero, List.getD_cons_succ]
        rw [readFill_exact payload.length payload rest rfl, hfineq]
      · have hw : Frame.write_to ⟨fin, op, some (a, b, c, d), payload⟩ ++ rest =
            ((if fin then 0x80 else 0x0) ||| op.toNat) :: 255 ::
              (beEncode 8 (payload.length % 2 ^ 64) ++
                (a :: b :: c :: d :: (payload ++ rest))) := by
          have hc2 : ¬(126 ≤ payload.length ∧ payload.length ≤ 0x7fff) := by
            omega
          simp [Frame.write_to, if_neg h1, if_neg hc2]
        rw [hw]
        unfold Frame.try_parse_from
        rw [readFill_two]
        simp only [List.getD_cons_zero, List.getD_cons_succ]
        rw [hb0and, OpCode.try_from_toNat op hop]
        simp only []
        have hand : (255 : Nat) &&& 127 = 127 := rfl
        rw [hand, if_neg (by norm_num : ¬(127 : Nat) = 126),
          if_pos (rfl : (127 : Nat) = 127)]
        rw [readFill_exact 8 (beEncode 8 (payload.length % 2 ^ 64))
          (a :: b :: c :: d :: (payload ++ rest)) (beEncode_length 8 _)]
        have hdec : beDecode (beEncode 8 (payload.length % 2 ^ 64)) =
            payload.length := by
          rw [beDecode_beEncode]
          norm_num
          omega
        rw [hdec]
        rw [if_pos (by decide : ((255 : Nat) >>> 7 != 0) = true)]
        rw [readFill_four]
        simp only [List.getD_cons_zero, List.getD_cons_succ]
        rw [readFill_exact payload.length payload rest rfl, hfineq]

instance : DecidablePred Frame.Valid := fun f => by
  unfold Frame.Valid
  infer_instance

/-- C5 counterexample: for the masked frame (final, Text, mask key
(1,0,0,0), payload [0]) serialize-then-parse returns the frame with its
stored payload byte [0] unchanged — `write_to` never applies the mask —
so comparing the parsed payload "after demasking" against the original
fails: demasking [0] with (1,0,0,0) yields [1] ≠ [0]. -/
theorem c5_counterexample :
    Frame.try_parse_from (Frame.write_to
      { is_final := true, opcode := .Text, mask := some (1, 0, 0, 0),
        payload := [0] }) =
      .ok ({ is_final := true, opcode := .Text, mask := some (1, 0, 0, 0),
             payload := [0] }, []) ∧
    demask [0] (1, 0, 0, 0) ≠ [0] := by
  constructor
  · rfl
  · decide

/-- C5 amended: for every valid frame (opcode as `OpCode::try_from`
produces it, payload length within the 64-bit length field),
serializing with `write_to` and parsing the bytes with `try_parse_from`
yields the original logical frame exactly, the payload compared WITHOUT
demasking — the serializer writes the payload as stored and the parser
returns it as read, demasking being applied only later on the read path. -/
theorem c5_roundtrip (f : Frame) (hv : f.Valid) :
    Frame.try_parse_from f.write_to = .ok (f, []) := by
  have h := parse_write_roundtrip f [] hv
  rwa [List.append_nil] at h

/-- C5 witness: the round-trip theorem applied to a concrete masked
Binary frame. -/
theorem c5_roundtrip_witness :
    Frame.Valid
      { is_final := true, opcode := .Binary, mask := some (9, 8, 7, 6),
        payload := [1, 2, 3] } ∧
    Frame.try_parse_from (Frame.write_to
      { is_final := true, opcode := .Binary, mask := some (9, 8, 7, 6),
        payload := [1, 2, 3] }) =
      .ok ({ is_final := true, opcode := .Binary, mask := some (9, 8, 7, 6),
             payload := [1, 2, 3] }, []) :=
  ⟨by decide, c5_roundtrip _ (by decide)⟩

/-- C2 counterexample: a frame with a 65535-byte payload is serialized
with length selector 127 — the 8-byte extended length field — not the
2-byte field the claim asserts, because `write_to` switches to the 8-byte
form above 0x7fff = 32767, not above 65535. -/
theorem c2_counterexample :
    (Frame.write_to
      { is_final := true, opcode := .Text, mask := none,
        payload := List.replicate 65535 0 }).getD 1 0 &&& 0x7f = 127 ∧
    ¬((Frame.write_to
      { is_final := true, opcode := .Text, mask := none,
        payload := List.replicate 65535 0 }).getD 1 0 &&& 0x7f = 126) := by
  have hgen : ∀ payload : List Nat, payload.length = 65535 →
      (Frame.write_to
        { is_final := true, opcode := .Text, mask := none,
          payload := payload }).getD 1 0 = 127 := by
    intro payload hp
    simp only [Frame.write_to, hp, Option.isSome_none, Bool.false_eq_true,
      if_false]
    rw [if_neg (by norm_num : ¬((65535 : Nat) < 126)),
        if_neg (by norm_num : ¬(126 ≤ (65535 : Nat) ∧ (65535 : Nat) ≤ 0x7fff))]
    simp only [List.cons_append, List.nil_append, List.getD_cons_succ,
      List.getD_cons_zero, Nat.or_zero]
  have hw := hgen (List.replicate 65535 0) (by simp only [List.length_replicate])
  rw [hw]
  decide

/-- C2 amended: for every valid frame, a payload of length 0 or 125 (any
length below 126) is encoded with the 1-byte literal length field; lengths
126 through 0x7fff = 32767 use the 2-byte extended field; lengths above
32767 — including 65535 and 65536 — use the 8-byte extended field; in
every case the total serialized size is header + length field + optional
4-byte key + payload, and `try_parse_from` recovers the frame, hence
exactly the original byte count. -/
theorem c2_amended (f : Frame) (hv : f.Valid) :
    (f.payload.length < 126 →
      (f.write_to).getD 1 0 &&& 0x7f = f.payload.length ∧
      (f.write_to).length = (if f.mask.isSome then 6 else 2) + f.payload.length) ∧
    (126 ≤ f.payload.length ∧ f.payload.length ≤ 0x7fff →
      (f.write_to).getD 1 0 &&& 0x7f = 126 ∧
      (f.write_to).length = (if f.mask.isSome then 8 else 4) + f.payload.length) ∧
    (0x7fff < f.payload.length →
      (f.write_to).getD 1 0 &&& 0x7f = 127 ∧
      (f.write_to).length = (if f.mask.isSome then 14 else 10) + f.payload.length) ∧
    Frame.try_parse_from f.write_to = .ok (f, []) := by
  obtain ⟨hop, hlen⟩ := hv
  have hrt : Frame.try_parse_from f.write_to = .ok (f, []) := by
    have h := parse_write_roundtrip f [] ⟨hop, hlen⟩
    rwa [List.append_nil] at h
  obtain ⟨fin, op, mk, payload⟩ := f
  simp only at hlen ⊢
  refine ⟨?_, ?_, ?_, hrt⟩
  · intro h1
    have hmod : payload.length % 256 = payload.length :=
      Nat.mod_eq_of_lt (by omega)
    rcases mk with _ | ⟨⟨a, b, c, d⟩⟩
    · have ha : payload.length &&& 127 = payload.length :=
        and127_self _ (by omega)
      constructor
      · simp [Frame.write_to, if_pos h1, hmod, Nat.or_zero, ha]
      · simp [Frame.write_to, if_pos h1]
        omega
    · have ha : (payload.length ||| 128) &&& 127 = payload.length :=
        lorR128_and127 _ (by omega)
      constructor
      · simp [Frame.write_to, if_pos h1, hmod, ha]
      · simp [Frame.write_to, if_pos h1]
        omega
  · intro h2
    have hno : ¬(payload.length < 126) := by omega
    rcases mk with _ | ⟨⟨a, b, c, d⟩⟩
    · constructor
      · simp [Frame.write_to, if_neg hno, if_pos h2, Nat.or_zero]
        decide
      · simp [Frame.write_to, if_neg hno, if_pos h2, beEncode_length]
        omega
    · constructor
      · simp [Frame.write_to, if_neg hno, if_pos h2]
        decide
      · simp [Frame.write_to, if_neg hno, if_pos h2, beEncode_length]
        omega
  · intro h3
    have hno : ¬(payload.length < 126) := by omega
    have hno2 : ¬(126 ≤ payload.length ∧ payload.length ≤ 0x7fff) := by omega
    rcases mk with _ | ⟨⟨a, b, c, d⟩⟩
    · constructor
      · simp [Frame.write_to, if_neg hno, if_neg hno2, Nat.or_zero]
      · simp [Frame.write_to, if_neg hno, if_neg hno2, beEncode_length]
        omega
    · constructor
      · simp [Frame.write_to, if_neg hno, if_neg hno2]
        decide
      · simp [Frame.write_to, if_neg hno, if_neg hno2, beEncode_length]
        omega


set_option maxRecDepth 40000 in
/-- C2 witness: the amended theorem at a 126-byte payload (2-byte length
field, parse recovers the frame). -/
theorem c2_amended_witness :
    (Frame.write_to
      { is_final := true, opcode := .Text, mask := none,
        payload := List.replicate 126 1 }).getD 1 0 &&& 0x7f = 126 ∧
    Frame.try_parse_from (Frame.write_to
      { is_final := true, opcode := .Text, mask := none,
        payload := List.replicate 126 1 }) =
      .ok ({ is_final := true, opcode := .Text, mask := none,
             payload := List.replicate 126 1 }, []) :=
  ⟨((c2_amended _ (by decide)).2.1 (by decide)).1,
   (c2_amended _ (by decide)).2.2.2⟩

/-- C8: serializing a frame built with a mask key sets the mask bit (top
bit of the second byte) and emits the 4 key bytes, but the payload bytes
follow exactly as stored in the frame — the cyclic XOR is never applied on
the serialization path (demasking happens only on the read path, see
`read_message_from`). -/
theorem c8_write_keeps_payload (f : Frame) (a b c d : Nat)
    (h : f.mask = some (a, b, c, d)) :
    (f.write_to).getD 1 0 >>> 7 = 1 ∧
    ∃ lenBytes : List Nat,
      f.write_to =
        ((if f.is_final then 0x80 else 0x0) ||| f.opcode.toNat) ::
          lenBytes ++ ([a, b, c, d] ++ f.payload) := by
  obtain ⟨fin, op, mk, payload⟩ := f
  simp only at h
  subst h
  by_cases h1 : payload.length < 126
  · have hmod : payload.length % 256 = payload.length :=
      Nat.mod_eq_of_lt (by omega)
    refine ⟨?_, ⟨[(payload.length % 256) ||| 128], ?_⟩⟩
    · simp [Frame.write_to, if_pos h1, hmod]
      exact lorR128_shiftRight7 _ (by omega)
    · simp [Frame.write_to, if_pos h1]
  · by_cases h2 : payload.length ≤ 0x7fff
    · have hc : 126 ≤ payload.length ∧ payload.length ≤ 0x7fff :=
        ⟨by omega, h2⟩
    
      refine ⟨?_, ⟨(126 ||| 128) :: beEncode 2 (payload.length % 2 ^ 16), ?_⟩⟩
      · simp [Frame.write_to, if_neg h1, if_pos hc]
      · simp [Frame.write_to, if_neg h1, if_pos hc]
    · have hc : ¬(126 ≤ payload.length ∧ payload.length ≤ 0x7fff) := by
        omega
      refine ⟨?_, ⟨(127 ||| 128) :: beEncode 8 (payload.length % 2 ^ 64), ?_⟩⟩
      · simp [Frame.write_to, if_neg h1, if_neg hc]
      · simp [Frame.write_to, if_neg h1, if_neg hc]

/-- C8 witness: the theorem at a concrete masked frame; the serialized
bytes end with the raw payload [7] right after the key bytes 1,2,3,4. -/
theorem c8_write_keeps_payload_witness :
    (Frame.write_to
      { is_final := true, opcode := .Text, mask := some (1, 2, 3, 4),
        payload := [7] }).getD 1 0 >>> 7 = 1 ∧
    ∃ lenBytes : List Nat,
      Frame.write_to
        { is_final := true, opcode := .Text, mask := some (1, 2, 3, 4),
          payload := [7] } =
        0x81 :: lenBytes ++ ([1, 2, 3, 4] ++ [7]) := by
  exact c8_write_keeps_payload
    { is_final := true, opcode := .Text, mask := some (1, 2, 3, 4),
      payload := [7] } 1 2 3 4 rfl


end MorseChat
